import Mathlib

/-!
Verification development for the drone-ws-target-tracking-asio-cxx repository.

The definitions below are a shallow embedding of the core of the repository:
the protocol packet and urgency dispatcher (src/protocol/include/protocol.hpp),
the retry executor with its backoff policies (src/protocol/include/retry.hpp),
and the session liveness flag and read loop of the WebSocket client and server
(src/ws-client/src/ws_client.cpp, src/ws-server/src/ws_server.cpp).

Durations (std::chrono::milliseconds, an int64 count) are modelled as Int.
The double-precision intermediate of the exponential backoff is modelled with
exact rational arithmetic, keeping the exact loop structure of the source
(multiply step by step, clamp and break as soon as the cap is exceeded).
Exceptions thrown by the retried operation are modelled by an abstract error
type: an operation is a function from the attempt index to an Except value.
-/

namespace DroneWS

-- ═════════════════════════════════════════════════════════════════════════
-- protocol.hpp : Urgency and Packet
-- ═════════════════════════════════════════════════════════════════════════

/-- Urgency is `enum class Urgency : std::uint8_t \x7b Green = 0, Yellow = 1,
Red = 2 \x7d`. We model an urgency value by its underlying integer so that
unrecognized encodings (any value other than 0, 1, 2) stay representable,
exactly as a `static_cast<Urgency>` of an arbitrary byte does in the source. -/
def greenU : Nat := 0

/-- Underlying value of `Urgency::Yellow`. -/
def yellowU : Nat := 1

/-- Underlying value of `Urgency::Red`. -/
def redU : Nat := 2

/-- `protocol::Packet`: a byte payload (`std::vector<std::uint8_t>`) plus an
urgency tag. Bytes are modelled as natural numbers. -/
structure Packet where
  payload : List Nat
  urgency : Nat
deriving DecidableEq, Repr

/-- `Packet(std::string_view data, Urgency urgency)`: copies the bytes of
`data` into the payload, byte for byte (`payload_\x7bdata.begin(), data.end()\x7d`). -/
def Packet.from_string (s : List Nat) (u : Nat) : Packet :=
  ⟨s, u⟩

/-- `Packet::from_bytes(std::span<const std::uint8_t> data, Urgency urgency)`:
copies the bytes of `data` into the payload. -/
def Packet.from_bytes (s : List Nat) (u : Nat) : Packet :=
  ⟨s, u⟩

/-- `Packet::payload_as_string()`: rebuilds a string from the payload bytes,
byte for byte (`std::string\x7bpayload_.begin(), payload_.end()\x7d`). -/
def Packet.payload_as_string (p : Packet) : List Nat :=
  p.payload

/-- `Packet::size()`: `payload_.size()`. -/
def Packet.size (p : Packet) : Nat :=
  p.payload.length

/-- `Packet::empty()`: `payload_.empty()`. -/
def Packet.isEmptyPayload (p : Packet) : Bool :=
  p.payload.isEmpty

/-- `ProtocolAPI::make_packet(data, urgency)`: `Packet::from_string(data, urgency)`. -/
def make_packet (data : List Nat) (u : Nat) : Packet :=
  Packet.from_string data u

-- ═════════════════════════════════════════════════════════════════════════
-- protocol.hpp : dispatch
-- ═════════════════════════════════════════════════════════════════════════

/-- The two behavior hooks of a dispatch policy / IPacketHandler. -/
inductive Hook where
  | normal
  | urgent
deriving DecidableEq, Repr

/-- The switch of `PacketDispatcher::dispatch` (and the identical switch of
`ProtocolAPI::dispatch`): `case Red: case Yellow:` run `on_urgent` once;
`case Green: default:` run `on_normal` once. The returned list records the
hook invocations made for one dispatch call, in order. -/
def dispatchHooks (u : Nat) : List Hook :=
  if u = redU ∨ u = yellowU then [Hook.urgent] else [Hook.normal]

-- ═════════════════════════════════════════════════════════════════════════
-- retry.hpp : RetryResult and RetryExecutor
-- ═════════════════════════════════════════════════════════════════════════

/-- `RetryResult<T>`: optional value, attempt count, cumulative delay in
milliseconds, and the last exception (modelled by an abstract error type ε). -/
structure RetryResult (ε α : Type) where
  value : Option α
  attempts : Nat
  total_delay : Int
  last_error : Option ε
deriving DecidableEq

/-- `RetryResult<T>::success()`: `value.has_value()`. -/
def RetryResult.success (r : RetryResult ε α) : Bool :=
  r.value.isSome

/-- `RetryResult<T>::failed()`: `!value.has_value()`. -/
def RetryResult.failed (r : RetryResult ε α) : Bool :=
  !r.value.isSome

/-- `RetryResult<void>`: the specialization replaces the optional value with a
`succeeded` flag. -/
structure RetryResultVoid (ε : Type) where
  succeeded : Bool
  attempts : Nat
  total_delay : Int
  last_error : Option ε
deriving DecidableEq

/-- `RetryResult<void>::success()`: `succeeded`. -/
def RetryResultVoid.success (r : RetryResultVoid ε) : Bool :=
  r.succeeded

/-- `RetryResult<void>::failed()`: `!succeeded`. -/
def RetryResultVoid.failed (r : RetryResultVoid ε) : Bool :=
  !r.succeeded

/-- Loop body of `RetryExecutor::execute` (value overload), retry.hpp lines
401 to 419. `fuel` is the number of loop iterations still available, that is
`max_attempts - attempt`; the guard `attempt + 1 < max_attempts` that decides
whether a delay is added is equivalently `fuel ≠ 0` after peeling the current
iteration. Each iteration sets `result.attempts = attempt + 1`; on success it
sets the value and returns; on failure it records the error and, when another
attempt remains, adds `policy.delay_for(attempt)` to `total_delay`. -/
def executeGo (d : Nat → Int) (op : Nat → Except ε α) :
    Nat → Nat → RetryResult ε α → RetryResult ε α
  | 0, _, acc => acc
  | fuel + 1, attempt, acc =>
    match op attempt with
    | Except.ok v => ⟨some v, attempt + 1, acc.total_delay, acc.last_error⟩
    | Except.error e =>
      executeGo d op fuel (attempt + 1)
        ⟨acc.value, attempt + 1,
         if fuel ≠ 0 then acc.total_delay + d attempt else acc.total_delay,
         some e⟩

/-- `RetryExecutor::execute` (value overload): run the loop from attempt 0
with a default-initialized `RetryResult` (no value, 0 attempts, 0 delay,
null error). `d` is `policy_.delay_for`, `max_attempts` is
`policy_.max_attempts()`. -/
def execute (d : Nat → Int) (max_attempts : Nat) (op : Nat → Except ε α) :
    RetryResult ε α :=
  executeGo d op max_attempts 0 ⟨none, 0, 0, none⟩

/-- Loop body of `RetryExecutor::execute` (void overload), retry.hpp lines
432 to 450: identical to the value overload except that success sets the
`succeeded` flag. -/
def executeVoidGo (d : Nat → Int) (op : Nat → Except ε Unit) :
    Nat → Nat → RetryResultVoid ε → RetryResultVoid ε
  | 0, _, acc => acc
  | fuel + 1, attempt, acc =>
    match op attempt with
    | Except.ok _ => ⟨true, attempt + 1, acc.total_delay, acc.last_error⟩
    | Except.error e =>
      executeVoidGo d op fuel (attempt + 1)
        ⟨acc.succeeded, attempt + 1,
         if fuel ≠ 0 then acc.total_delay + d attempt else acc.total_delay,
         some e⟩

/-- `RetryExecutor::execute` (void overload) from attempt 0. -/
def executeVoid (d : Nat → Int) (max_attempts : Nat)
    (op : Nat → Except ε Unit) : RetryResultVoid ε :=
  executeVoidGo d op max_attempts 0 ⟨false, 0, 0, none⟩

/-- Loop body of `RetryExecutor::execute_if`, retry.hpp lines 465 to 494:
like `execute`, but after recording a failure the predicate `should_retry` is
consulted; if it reports the error as non-retryable the current result is
returned immediately (`co_return result`), before any delay is added. -/
def executeIfGo (d : Nat → Int) (op : Nat → Except ε α)
    (should_retry : ε → Bool) :
    Nat → Nat → RetryResult ε α → RetryResult ε α
  | 0, _, acc => acc
  | fuel + 1, attempt, acc =>
    match op attempt with
    | Except.ok v => ⟨some v, attempt + 1, acc.total_delay, acc.last_error⟩
    | Except.error e =>
      if should_retry e = false then
        ⟨acc.value, attempt + 1, acc.total_delay, some e⟩
      else
        executeIfGo d op should_retry fuel (attempt + 1)
          ⟨acc.value, attempt + 1,
           if fuel ≠ 0 then acc.total_delay + d attempt else acc.total_delay,
           some e⟩

/-- `RetryExecutor::execute_if` from attempt 0. -/
def execute_if (d : Nat → Int) (max_attempts : Nat) (op : Nat → Except ε α)
    (should_retry : ε → Bool) : RetryResult ε α :=
  executeIfGo d op should_retry max_attempts 0 ⟨none, 0, 0, none⟩

-- ═════════════════════════════════════════════════════════════════════════
-- retry.hpp : backoff policies
-- ═════════════════════════════════════════════════════════════════════════

/-- `LinearBackoffPolicy::delay_for(attempt)`: `min(initial_ + increment_ *
attempt, max_delay_)`, retry.hpp lines 186 to 189. Durations in ms as Int. -/
def linearDelayFor (initial increment max_delay : Int) (attempt : Nat) : Int :=
  min (initial + increment * (attempt : Int)) max_delay

/-- The clamp-and-stop loop of `ExponentialBackoffPolicy::delay_for`,
retry.hpp lines 260 to 268: starting from `base`, multiply by `mult` once per
remaining iteration; as soon as the product exceeds `max_ms`, set it to
`max_ms` and break out of the loop. The double-precision accumulator is
modelled with exact rationals. -/
def expBase (max_ms mult : ℚ) : ℚ → Nat → ℚ
  | b, 0 => b
  | b, n + 1 =>
    if max_ms < b * mult then max_ms else expBase max_ms mult (b * mult) n

/-- `static_cast<std::int64_t>` of the double accumulator: truncation toward
zero. -/
def truncToInt (q : ℚ) : Int :=
  if 0 ≤ q then ⌊q⌋ else ⌈q⌉

/-- `ExponentialBackoffPolicy::delay_for(attempt)`, retry.hpp lines 258 to
284: compute the clamp-and-stop base; if `jitter_factor_ > 0` multiply by a
value `draw` sampled from the uniform distribution on
`[1 - jitter_factor, 1 + jitter_factor]` (the sample is passed in explicitly
here, standing for the private PRNG state); truncate to an integral number of
milliseconds and re-clamp to `max_delay`. -/
def expDelayFor (initial max_delay : Int) (mult jitter draw : ℚ)
    (attempt : Nat) : Int :=
  min
    (truncToInt
      (if 0 < jitter
        then expBase (max_delay : ℚ) mult (initial : ℚ) attempt * draw
        else expBase (max_delay : ℚ) mult (initial : ℚ) attempt))
    max_delay

-- ═════════════════════════════════════════════════════════════════════════
-- ws_client.cpp / ws_server.cpp : liveness flag and read loop
-- ═════════════════════════════════════════════════════════════════════════

/-- Observable state of `WSClient`: the atomic `running_` flag (initialized
to false). The SSL context, config and executor carry no further observable
session state. -/
structure ClientState where
  running : Bool
deriving DecidableEq, Repr

/-- `WSClient` after construction: `running_\x7bfalse\x7d`. -/
def clientInit : ClientState :=
  ⟨false⟩

/-- `WSClient::start`: `running_.store(true)` then spawns the session. -/
def clientStart (_s : ClientState) : ClientState :=
  ⟨true⟩

/-- `WSClient::stop` (ws_client.cpp lines 134 to 137): `running_.store(false)`
and a log line; nothing else. -/
def clientStop (_s : ClientState) : ClientState :=
  ⟨false⟩

/-- `WSClient::is_running`: `running_.load()`. -/
def ClientState.is_running (s : ClientState) : Bool :=
  s.running

/-- Observable state of `WSServer`: the atomic `running_` flag and whether
the acceptor socket is open. -/
structure ServerState where
  running : Bool
  acceptor_open : Bool
deriving DecidableEq, Repr

/-- `WSServer` after construction: `running_\x7bfalse\x7d`, acceptor opened,
bound and listening by the constructor. -/
def serverInit : ServerState :=
  ⟨false, true⟩

/-- `WSServer::run`: `running_.store(true)` then spawns the accept loop. -/
def serverRun (s : ServerState) : ServerState :=
  { s with running := true }

/-- `WSServer::stop` (ws_server.cpp lines 132 to 143): `running_.store(false)`
and `acceptor_.close(ec)`; a close error is only logged. -/
def serverStop (_s : ServerState) : ServerState :=
  ⟨false, false⟩

/-- `WSServer::is_running`: `running_.load()`. -/
def ServerState.is_running (s : ServerState) : Bool :=
  s.running

/-- One unit produced by `ws.async_read` in the read loops: either a complete
message (its bytes) or an error / closed-connection report. -/
inductive ReadItem where
  | msg (data : List Nat)
  | err
deriving DecidableEq, Repr

/-- Packet built from inbound transport bytes in the read loops:
`api_.make_packet(msg, protocol::Urgency::Green)` (ws_client.cpp line 213,
ws_server.cpp line 210). -/
def rx_packet (msg : List Nat) : Packet :=
  make_packet msg greenU

/-- Value of `running_.load()` observed at the top of read-loop iteration `i`.
In the single-threaded cooperative model, `stop()` can only run while the
session is suspended; `stopAt = some k` means the flag is cleared during the
read of iteration `k`, so the check of iteration `k + 1` is the first to
observe false. `stopAt = none` means `stop()` is never called. -/
def runningAt (stopAt : Option Nat) (i : Nat) : Bool :=
  match stopAt with
  | none => true
  | some k => i ≤ k

/-- The read loops of `WSClient::run_session` (ws_client.cpp lines 196 to 215)
and `WSServer::handle_session` (ws_server.cpp lines 193 to 218): while the
liveness flag reads true, await one inbound unit; on a read error or closed
connection break out; otherwise wrap the bytes into a Green packet and hand it
to the dispatcher, then loop. `items` is the sequence of units the transport
delivers; the returned list is the sequence of packets handed to the
dispatcher, in order. -/
def readLoopGo (stopAt : Option Nat) : List ReadItem → Nat → List Packet
  | [], _ => []
  | item :: rest, i =>
    if runningAt stopAt i then
      match item with
      | ReadItem.err => []
      | ReadItem.msg data => rx_packet data :: readLoopGo stopAt rest (i + 1)
    else []

/-- Read loop started at iteration 0 (right after the handshake / the initial
write). -/
def readLoop (items : List ReadItem) (stopAt : Option Nat) : List Packet :=
  readLoopGo stopAt items 0

-- ═════════════════════════════════════════════════════════════════════════
-- Helper lemmas about the retry loop
-- ═════════════════════════════════════════════════════════════════════════

/-- Conversion between the two RetryResult shapes: the void specialization
observes exactly `value.has_value()` as its `succeeded` flag. -/
def toVoid (r : RetryResult ε Unit) : RetryResultVoid ε :=
  ⟨r.value.isSome, r.attempts, r.total_delay, r.last_error⟩

theorem executeVoidGo_sim (d : Nat → Int) (op : Nat → Except ε Unit) :
    ∀ fuel attempt acc,
      executeVoidGo d op fuel attempt (toVoid acc) =
        toVoid (executeGo d op fuel attempt acc) := by
  intro fuel
  induction fuel with
  | zero => intro attempt acc; rfl
  | succ n ih =>
    intro attempt acc
    cases hop : op attempt with
    | ok v => simp [executeVoidGo, executeGo, hop, toVoid]
    | error e =>
      have h2 := ih (attempt + 1)
        ⟨acc.value, attempt + 1,
         if n ≠ 0 then acc.total_delay + d attempt else acc.total_delay, some e⟩
      simp only [executeVoidGo, executeGo, hop]
      simpa [toVoid] using h2

theorem executeVoid_eq_toVoid (d : Nat → Int) (N : Nat)
    (op : Nat → Except ε Unit) :
    executeVoid d N op = toVoid (execute d N op) := by
  have h := executeVoidGo_sim d op N 0 ⟨none, 0, 0, none⟩
  simpa [executeVoid, execute, toVoid] using h

theorem executeGo_all_fail (d : Nat → Int) (op : Nat → Except ε α)
    (errs : Nat → ε) :
    ∀ fuel attempt acc, 1 ≤ fuel →
      (∀ a, attempt ≤ a → a < attempt + fuel → op a = Except.error (errs a)) →
      executeGo d op fuel attempt acc =
        ⟨acc.value, attempt + fuel,
         acc.total_delay + ∑ i ∈ Finset.range (fuel - 1), d (attempt + i),
         some (errs (attempt + fuel - 1))⟩ := by
  intro fuel
  induction fuel with
  | zero => intro attempt acc h _; exact absurd h (by decide)
  | succ n ih =>
    intro attempt acc _ hop
    have hop0 : op attempt = Except.error (errs attempt) :=
      hop attempt le_rfl (by omega)
    cases n with
    | zero =>
      simp [executeGo, hop0]
    | succ m =>
      have hrec := ih (attempt + 1)
        ⟨acc.value, attempt + 1, acc.total_delay + d attempt,
         some (errs attempt)⟩
        (by omega) (fun a h1 h2 => hop a (by omega) (by omega))
      have hstep : executeGo d op (m + 1 + 1) attempt acc =
          executeGo d op (m + 1) (attempt + 1)
            ⟨acc.value, attempt + 1, acc.total_delay + d attempt,
             some (errs attempt)⟩ := by
        simp [executeGo, hop0]
      rw [hstep, hrec]
      simp only [RetryResult.mk.injEq]
      refine ⟨trivial, by omega, ?_,
        congrArg (fun x => some (errs x)) (by omega)⟩
      rw [show (m + 1 + 1 - 1) = m + 1 from by omega,
        Finset.sum_range_succ' (fun i => d (attempt + i)) m,
        show (m + 1 - 1) = m from by omega,
        Finset.sum_congr rfl
          (fun i _ => congrArg d (by omega : attempt + 1 + i = attempt + (i + 1)))]
      simp only [Nat.add_zero]
      ring

theorem executeGo_success_at (d : Nat → Int) (op : Nat → Except ε α)
    (errs : Nat → ε) (v : α) :
    ∀ j fuel attempt acc, j < fuel →
      (∀ a, attempt ≤ a → a < attempt + j → op a = Except.error (errs a)) →
      op (attempt + j) = Except.ok v →
      (executeGo d op fuel attempt acc).value = some v ∧
      (executeGo d op fuel attempt acc).attempts = attempt + j + 1 ∧
      (executeGo d op fuel attempt acc).total_delay =
        acc.total_delay + ∑ i ∈ Finset.range j, d (attempt + i) := by
  intro j
  induction j with
  | zero =>
    intro fuel attempt acc hj _ hok
    cases fuel with
    | zero => exact absurd hj (by decide)
    | succ f =>
      rw [Nat.add_zero] at hok
      simp [executeGo, hok]
  | succ m ih =>
    intro fuel attempt acc hj hfail hok
    cases fuel with
    | zero => exact absurd hj (by omega)
    | succ f =>
      have hop0 : op attempt = Except.error (errs attempt) :=
        hfail attempt le_rfl (by omega)
      have hf : f ≠ 0 := by omega
      have hstep : executeGo d op (f + 1) attempt acc =
          executeGo d op f (attempt + 1)
            ⟨acc.value, attempt + 1, acc.total_delay + d attempt,
             some (errs attempt)⟩ := by
        simp [executeGo, hop0, hf]
      have hrec := ih f (attempt + 1)
        ⟨acc.value, attempt + 1, acc.total_delay + d attempt,
         some (errs attempt)⟩
        (by omega) (fun a h1 h2 => hfail a (by omega) (by omega))
        (by rw [show attempt + 1 + m = attempt + (m + 1) from by omega]; exact hok)
      rw [hstep]
      refine ⟨hrec.1, by rw [hrec.2.1]; omega, ?_⟩
      rw [hrec.2.2,
        Finset.sum_range_succ' (fun i => d (attempt + i)) m,
        Finset.sum_congr rfl
          (fun i _ => congrArg d (by omega : attempt + 1 + i = attempt + (i + 1)))]
      simp only [Nat.add_zero]
      ring

theorem executeGo_attempts_le (d : Nat → Int) (op : Nat → Except ε α) :
    ∀ fuel attempt acc, acc.attempts ≤ attempt →
      (executeGo d op fuel attempt acc).attempts ≤ attempt + fuel := by
  intro fuel
  induction fuel with
  | zero => intro attempt acc h; simpa [executeGo] using h
  | succ n ih =>
    intro attempt acc _
    cases hop : op attempt with
    | ok v => simp [executeGo, hop]
    | error e =>
      have h2 := ih (attempt + 1)
        ⟨acc.value, attempt + 1,
         if n ≠ 0 then acc.total_delay + d attempt else acc.total_delay, some e⟩
        le_rfl
      simp only [executeGo, hop]
      exact h2.trans (by omega)

theorem executeGo_attempts_ge (d : Nat → Int) (op : Nat → Except ε α) :
    ∀ fuel attempt acc, 1 ≤ fuel →
      attempt + 1 ≤ (executeGo d op fuel attempt acc).attempts := by
  intro fuel
  induction fuel with
  | zero => intro attempt acc h; exact absurd h (by decide)
  | succ n ih =>
    intro attempt acc _
    cases hop : op attempt with
    | ok v => simp [executeGo, hop]
    | error e =>
      cases n with
      | zero => simp [executeGo, hop]
      | succ m =>
        have h2 := ih (attempt + 1)
          ⟨acc.value, attempt + 1,
           if m + 1 ≠ 0 then acc.total_delay + d attempt else acc.total_delay,
           some e⟩ (by omega)
        simp only [executeGo, hop]
        exact le_trans (by omega) h2

theorem executeIfGo_attempts_le (d : Nat → Int) (op : Nat → Except ε α)
    (p : ε → Bool) :
    ∀ fuel attempt acc, acc.attempts ≤ attempt →
      (executeIfGo d op p fuel attempt acc).attempts ≤ attempt + fuel := by
  intro fuel
  induction fuel with
  | zero => intro attempt acc h; simpa [executeIfGo] using h
  | succ n ih =>
    intro attempt acc _
    cases hop : op attempt with
    | ok v => simp [executeIfGo, hop]
    | error e =>
      cases hp : p e with
      | false => simp [executeIfGo, hop, hp]
      | true =>
        have h2 := ih (attempt + 1)
          ⟨acc.value, attempt + 1,
           if n ≠ 0 then acc.total_delay + d attempt else acc.total_delay,
           some e⟩ le_rfl
        simp only [executeIfGo, hop, hp]
        exact h2.trans (by omega)

theorem executeIfGo_attempts_ge (d : Nat → Int) (op : Nat → Except ε α)
    (p : ε → Bool) :
    ∀ fuel attempt acc, 1 ≤ fuel →
      attempt + 1 ≤ (executeIfGo d op p fuel attempt acc).attempts := by
  intro fuel
  induction fuel with
  | zero => intro attempt acc h; exact absurd h (by decide)
  | succ n ih =>
    intro attempt acc _
    cases hop : op attempt with
    | ok v => simp [executeIfGo, hop]
    | error e =>
      cases hp : p e with
      | false => simp [executeIfGo, hop, hp]
      | true =>
        cases n with
        | zero => simp [executeIfGo, hop, hp]
        | succ m =>
          have h2 := ih (attempt + 1)
            ⟨acc.value, attempt + 1,
             if m + 1 ≠ 0 then acc.total_delay + d attempt else acc.total_delay,
             some e⟩ (by omega)
          simp only [executeIfGo, hop, hp]
          exact le_trans (by omega) h2

theorem execute_all_fail (d : Nat → Int) (N : Nat) (op : Nat → Except ε α)
    (errs : Nat → ε) (hN : 1 ≤ N)
    (h : ∀ a, a < N → op a = Except.error (errs a)) :
    execute d N op =
      ⟨none, N, ∑ i ∈ Finset.range (N - 1), d i, some (errs (N - 1))⟩ := by
  unfold execute
  rw [executeGo_all_fail d op errs N 0 ⟨none, 0, 0, none⟩ hN
    (fun a h1 h2 => h a (by omega))]
  simp

theorem execute_success_at (d : Nat → Int) (N : Nat) (op : Nat → Except ε α)
    (errs : Nat → ε) (v : α) (k : Nat) (hk1 : 1 ≤ k) (hkN : k ≤ N)
    (hfail : ∀ a, a < k - 1 → op a = Except.error (errs a))
    (hok : op (k - 1) = Except.ok v) :
    (execute d N op).value = some v ∧
    (execute d N op).attempts = k ∧
    (execute d N op).total_delay = ∑ i ∈ Finset.range (k - 1), d i := by
  unfold execute
  have h := executeGo_success_at d op errs v (k - 1) N 0 ⟨none, 0, 0, none⟩
    (by omega) (fun a h1 h2 => hfail a (by omega)) (by simpa using hok)
  refine ⟨h.1, by rw [h.2.1]; omega, ?_⟩
  rw [h.2.2]
  simp

-- ═════════════════════════════════════════════════════════════════════════
-- Claim theorems: retry engine
-- ═════════════════════════════════════════════════════════════════════════

/-- Claim C1: for every backoff policy with max_attempts = N at least 1 and
every operation: if the operation fails on every attempt, execute returns an
outcome with attempts = N, failed() true, and total_delay equal to the sum of
delay_for(0..N-2) (no delay after the final attempt); if the operation first
succeeds on 1-indexed attempt k with k at most N, execute returns attempts =
k, success() true, and total_delay equal to the sum of the first k-1 computed
delays. Stated for the value overload (`op`) and the void overload (`opv`). -/
theorem C1_retry_execute_outcome {ε α : Type} (d : Nat → Int) (N : Nat)
    (op : Nat → Except ε α) (opv : Nat → Except ε Unit) (errs : Nat → ε)
    (hN : 1 ≤ N) :
    ((∀ a, a < N → op a = Except.error (errs a)) →
      (execute d N op).attempts = N ∧ (execute d N op).failed = true ∧
      (execute d N op).total_delay = ∑ i ∈ Finset.range (N - 1), d i) ∧
    (∀ k v, 1 ≤ k → k ≤ N →
      (∀ a, a < k - 1 → op a = Except.error (errs a)) →
      op (k - 1) = Except.ok v →
      (execute d N op).attempts = k ∧ (execute d N op).success = true ∧
      (execute d N op).total_delay = ∑ i ∈ Finset.range (k - 1), d i) ∧
    ((∀ a, a < N → opv a = Except.error (errs a)) →
      (executeVoid d N opv).attempts = N ∧
      (executeVoid d N opv).failed = true ∧
      (executeVoid d N opv).total_delay = ∑ i ∈ Finset.range (N - 1), d i) ∧
    (∀ k, 1 ≤ k → k ≤ N →
      (∀ a, a < k - 1 → opv a = Except.error (errs a)) →
      opv (k - 1) = Except.ok () →
      (executeVoid d N opv).attempts = k ∧
      (executeVoid d N opv).success = true ∧
      (executeVoid d N opv).total_delay = ∑ i ∈ Finset.range (k - 1), d i) := by
  refine ⟨fun h => ?_, fun k v hk1 hkN hfail hok => ?_, fun h => ?_,
    fun k hk1 hkN hfail hok => ?_⟩
  · rw [execute_all_fail d N op errs hN h]
    exact ⟨rfl, rfl, rfl⟩
  · have h := execute_success_at d N op errs v k hk1 hkN hfail hok
    exact ⟨h.2.1, by simp [RetryResult.success, h.1], h.2.2⟩
  · rw [executeVoid_eq_toVoid, execute_all_fail d N opv errs hN h]
    exact ⟨rfl, rfl, rfl⟩
  · have h := execute_success_at d N opv errs () k hk1 hkN hfail hok
    rw [executeVoid_eq_toVoid]
    refine ⟨h.2.1, ?_, h.2.2⟩
    simp [RetryResultVoid.success, toVoid, h.1]

/-- Witness for C1: with three attempts and delay_for(i) = 100 + i, an
operation failing on every attempt makes 3 attempts with total delay
100 + 101 = 201; an operation succeeding on attempt 2 makes 2 attempts. -/
theorem C1_retry_execute_outcome_w :
    (execute (fun i => (100 : Int) + i) 3
      (fun a => (Except.error a : Except Nat Nat))).attempts = 3 ∧
    (execute (fun i => (100 : Int) + i) 3
      (fun a => (Except.error a : Except Nat Nat))).total_delay = 201 ∧
    (execute (fun i => (100 : Int) + i) 3
      (fun a => if a < 1 then Except.error a
                else (Except.ok 7 : Except Nat Nat))).attempts = 2 ∧
    (executeVoid (fun i => (100 : Int) + i) 3
      (fun a => (Except.error a : Except Nat Unit))).failed = true := by
  have h1 := C1_retry_execute_outcome (fun i => (100 : Int) + i) 3
    (fun a => (Except.error a : Except Nat Nat))
    (fun a => (Except.error a : Except Nat Unit)) (fun a => a) (by omega)
  have h2 := C1_retry_execute_outcome (fun i => (100 : Int) + i) 3
    (fun a => if a < 1 then Except.error a else (Except.ok 7 : Except Nat Nat))
    (fun a => (Except.error a : Except Nat Unit)) (fun a => a) (by omega)
  obtain ⟨ha, hf, hd⟩ := h1.1 (fun a _ => rfl)
  refine ⟨ha, ?_, ?_, (h1.2.2.1 (fun a _ => rfl)).2.1⟩
  · rw [hd]; decide
  · refine (h2.2.1 2 7 (by omega) (by omega) (fun a haa => ?_) (by simp)).1
    have hlt : a < 1 := by omega
    simp [hlt]

/-- Claim C3: execute_if with a predicate that reports every failure as
non-retryable returns after exactly one attempt with a failed outcome
carrying that error and zero total_delay, regardless of max_attempts. -/
theorem C3_execute_if_nonretryable {ε α : Type} (d : Nat → Int) (N : Nat)
    (op : Nat → Except ε α) (p : ε → Bool) (e : ε) (hN : 1 ≤ N)
    (h0 : op 0 = Except.error e) (hp : ∀ x, p x = false) :
    execute_if d N op p = ⟨none, 1, 0, some e⟩ ∧
    (execute_if d N op p).failed = true ∧
    (execute_if d N op p).total_delay = 0 := by
  obtain ⟨n, rfl⟩ : ∃ n, N = n + 1 := ⟨N - 1, by omega⟩
  have heq : execute_if d (n + 1) op p = ⟨none, 1, 0, some e⟩ := by
    unfold execute_if
    simp [executeIfGo, h0, hp]
  exact ⟨heq, by rw [heq]; rfl, by rw [heq]⟩

/-- Witness for C3: max_attempts 4, an operation that always throws, and an
always-non-retryable predicate produce a failed outcome after one attempt
with zero delay. -/
theorem C3_execute_if_nonretryable_w :
    execute_if (fun _ => (5 : Int)) 4
      (fun a => (Except.error (a + 40) : Except Nat Nat)) (fun _ => false) =
      ⟨none, 1, 0, some 40⟩ :=
  (C3_execute_if_nonretryable (fun _ => (5 : Int)) 4 _ _ 40 (by omega) rfl
    (fun _ => rfl)).1

/-- Claim C4: for every configuration with max_attempts at least 1, every
outcome returned by execute (both overloads) or execute_if has an attempts
field in the range [1, max_attempts]. -/
theorem C4_attempts_in_range {ε α : Type} (d : Nat → Int) (N : Nat)
    (op : Nat → Except ε α) (opv : Nat → Except ε Unit) (p : ε → Bool)
    (hN : 1 ≤ N) :
    (1 ≤ (execute d N op).attempts ∧ (execute d N op).attempts ≤ N) ∧
    (1 ≤ (executeVoid d N opv).attempts ∧
      (executeVoid d N opv).attempts ≤ N) ∧
    (1 ≤ (execute_if d N op p).attempts ∧
      (execute_if d N op p).attempts ≤ N) := by
  refine ⟨⟨?_, ?_⟩, ⟨?_, ?_⟩, ⟨?_, ?_⟩⟩
  · simpa [execute] using executeGo_attempts_ge d op N 0 ⟨none, 0, 0, none⟩ hN
  · simpa [execute] using
      executeGo_attempts_le d op N 0 ⟨none, 0, 0, none⟩ le_rfl
  · rw [executeVoid_eq_toVoid]
    simpa [execute, toVoid] using
      executeGo_attempts_ge d opv N 0 ⟨none, 0, 0, none⟩ hN
  · rw [executeVoid_eq_toVoid]
    simpa [execute, toVoid] using
      executeGo_attempts_le d opv N 0 ⟨none, 0, 0, none⟩ le_rfl
  · simpa [execute_if] using
      executeIfGo_attempts_ge d op p N 0 ⟨none, 0, 0, none⟩ hN
  · simpa [execute_if] using
      executeIfGo_attempts_le d op p N 0 ⟨none, 0, 0, none⟩ le_rfl

/-- Witness for C4 with max_attempts 5 and an always-failing operation. -/
theorem C4_attempts_in_range_w :
    1 ≤ (execute (fun _ => (1 : Int)) 5
      (fun a => (Except.error a : Except Nat Nat))).attempts ∧
    (execute (fun _ => (1 : Int)) 5
      (fun a => (Except.error a : Except Nat Nat))).attempts ≤ 5 :=
  (C4_attempts_in_range (fun _ => (1 : Int)) 5
    (fun a => (Except.error a : Except Nat Nat))
    (fun a => (Except.error a : Except Nat Unit)) (fun _ => true)
    (by omega)).1

-- ═════════════════════════════════════════════════════════════════════════
-- Claim theorems: dispatcher, packet, stop
-- ═════════════════════════════════════════════════════════════════════════

/-- Claim C2: for every Packet, dispatch invokes exactly one behavior hook
exactly once: on_normal when the urgency is Normal (Green), on_urgent when
the urgency is Elevated (Yellow) or Critical (Red), and on_normal for any
unrecognized urgency value, with no error raised (the routing is total). -/
theorem C2_dispatch_exactly_one_hook (pkt : Packet) :
    (dispatchHooks pkt.urgency).length = 1 ∧
    (pkt.urgency = greenU → dispatchHooks pkt.urgency = [Hook.normal]) ∧
    ((pkt.urgency = yellowU ∨ pkt.urgency = redU) →
      dispatchHooks pkt.urgency = [Hook.urgent]) ∧
    ((pkt.urgency ≠ greenU ∧ pkt.urgency ≠ yellowU ∧ pkt.urgency ≠ redU) →
      dispatchHooks pkt.urgency = [Hook.normal]) := by
  refine ⟨by unfold dispatchHooks; split <;> rfl,
    fun h => by rw [h]; decide,
    fun h => by rcases h with h | h <;> rw [h] <;> decide,
    fun h => ?_⟩
  have hc : ¬ (pkt.urgency = redU ∨ pkt.urgency = yellowU) := by
    rintro (hc | hc)
    · exact h.2.2 hc
    · exact h.2.1 hc
  unfold dispatchHooks
  rw [if_neg hc]

/-- Witness for C2 at a concrete packet with the unrecognized urgency value 7
and a concrete Yellow packet. -/
theorem C2_dispatch_exactly_one_hook_w :
    dispatchHooks (Packet.mk [3, 4] 7).urgency = [Hook.normal] ∧
    (dispatchHooks (Packet.mk [3, 4] 7).urgency).length = 1 ∧
    dispatchHooks (Packet.mk [] 1).urgency = [Hook.urgent] := by
  have h7 := C2_dispatch_exactly_one_hook (Packet.mk [3, 4] 7)
  have h1 := C2_dispatch_exactly_one_hook (Packet.mk [] 1)
  exact ⟨h7.2.2.2 (by decide), h7.1, h1.2.2.1 (by decide)⟩

/-- Claim C9: a Packet constructed from a byte sequence or string keeps the
payload byte for byte: the length equals the source length, the bytes equal
the source bytes, payload_as_string round-trips, and an empty payload is a
valid packet of size 0. -/
theorem C9_packet_payload_roundtrip (s : List Nat) (u : Nat) :
    (Packet.from_string s u).payload = s ∧
    (Packet.from_string s u).size = s.length ∧
    (Packet.from_string s u).payload_as_string = s ∧
    (Packet.from_bytes s u).payload = s ∧
    (Packet.from_bytes s u).size = s.length ∧
    (Packet.from_string s u).urgency = u ∧
    (Packet.from_string [] u).size = 0 :=
  ⟨rfl, rfl, rfl, rfl, rfl, rfl, rfl⟩

-- ═════════════════════════════════════════════════════════════════════════
-- Helper lemmas about the backoff policies
-- ═════════════════════════════════════════════════════════════════════════

theorem expBase_le_max (max_ms mult : ℚ) (hm : 1 ≤ mult) :
    ∀ a b, 0 ≤ b → b ≤ max_ms → expBase max_ms mult b a ≤ max_ms := by
  intro a
  induction a with
  | zero => intro b _ hb; simpa [expBase] using hb
  | succ n ih =>
    intro b hb0 hb
    by_cases hc : max_ms < b * mult
    · simp [expBase, hc]
    · rw [show expBase max_ms mult b (n + 1) =
          expBase max_ms mult (b * mult) n from by simp [expBase, hc]]
      exact ih (b * mult) (mul_nonneg hb0 (zero_le_one.trans hm)) (not_lt.mp hc)

theorem expBase_self_le (max_ms mult : ℚ) (hm : 1 ≤ mult) :
    ∀ a b, 0 ≤ b → b ≤ max_ms → b ≤ expBase max_ms mult b a := by
  intro a
  induction a with
  | zero => intro b _ _; simp [expBase]
  | succ n ih =>
    intro b hb0 hb
    by_cases hc : max_ms < b * mult
    · simpa [expBase, hc] using hb
    · rw [show expBase max_ms mult b (n + 1) =
          expBase max_ms mult (b * mult) n from by simp [expBase, hc]]
      exact le_trans (le_mul_of_one_le_right hb0 hm)
        (ih (b * mult) (mul_nonneg hb0 (zero_le_one.trans hm)) (not_lt.mp hc))

theorem expBase_step_mono (max_ms mult : ℚ) (hm : 1 ≤ mult) :
    ∀ a b, 0 ≤ b → b ≤ max_ms →
      expBase max_ms mult b a ≤ expBase max_ms mult b (a + 1) := by
  intro a
  induction a with
  | zero =>
    intro b hb0 hb
    by_cases hc : max_ms < b * mult
    · simpa [expBase, hc] using hb
    · simpa [expBase, hc] using le_mul_of_one_le_right hb0 hm
  | succ n ih =>
    intro b hb0 hb
    by_cases hc : max_ms < b * mult
    · simp [expBase, hc]
    · rw [show expBase max_ms mult b (n + 1) =
          expBase max_ms mult (b * mult) n from by simp [expBase, hc],
        show expBase max_ms mult b (n + 1 + 1) =
          expBase max_ms mult (b * mult) (n + 1) from by simp [expBase, hc]]
      exact ih (b * mult) (mul_nonneg hb0 (zero_le_one.trans hm)) (not_lt.mp hc)

theorem expBase_mono (max_ms mult : ℚ) (hm : 1 ≤ mult) (b : ℚ)
    (hb0 : 0 ≤ b) (hb : b ≤ max_ms) :
    ∀ a c, a ≤ c → expBase max_ms mult b a ≤ expBase max_ms mult b c := by
  intro a c h
  induction c, h using Nat.le_induction with
  | base => exact le_rfl
  | succ n hn ih =>
    exact le_trans ih (expBase_step_mono max_ms mult hm n b hb0 hb)

theorem truncToInt_mono_nonneg {p q : ℚ} (hp : 0 ≤ p) (h : p ≤ q) :
    truncToInt p ≤ truncToInt q := by
  unfold truncToInt
  rw [if_pos hp, if_pos (hp.trans h)]
  exact Int.floor_mono h

-- ═════════════════════════════════════════════════════════════════════════
-- Claim theorems: backoff policies
-- ═════════════════════════════════════════════════════════════════════════

/-- Claim C5: for every configuration with multiplier at least 1, initial
delay at least 0 and max_delay at least the initial delay, the exponential
delay with jitter_factor = 0 is deterministic (independent of the PRNG draw),
non-decreasing in the attempt index, never exceeds max_delay, and is computed
clamp-and-stop: the intermediate base value never goes past the cap, for
arbitrarily large attempt counts. -/
theorem C5_exponential_no_jitter (initial max_delay : Int) (mult : ℚ)
    (hm : 1 ≤ mult) (hinit : 0 ≤ initial) (hmax : initial ≤ max_delay) :
    (∀ draw1 draw2 a, expDelayFor initial max_delay mult 0 draw1 a =
      expDelayFor initial max_delay mult 0 draw2 a) ∧
    (∀ (draw : ℚ) a c, a ≤ c → expDelayFor initial max_delay mult 0 draw a ≤
      expDelayFor initial max_delay mult 0 draw c) ∧
    (∀ (draw : ℚ) a, expDelayFor initial max_delay mult 0 draw a ≤
      max_delay) ∧
    (∀ a, expBase (max_delay : ℚ) mult (initial : ℚ) a ≤ (max_delay : ℚ)) := by
  have hinitQ : (0 : ℚ) ≤ (initial : ℚ) := by exact_mod_cast hinit
  have hmaxQ : (initial : ℚ) ≤ (max_delay : ℚ) := by exact_mod_cast hmax
  have hnn : ∀ a, (0 : ℚ) ≤ expBase (max_delay : ℚ) mult (initial : ℚ) a :=
    fun a => le_trans hinitQ
      (expBase_self_le (max_delay : ℚ) mult hm a (initial : ℚ) hinitQ hmaxQ)
  refine ⟨fun d1 d2 a => by simp [expDelayFor], fun draw a c h => ?_,
    fun draw a => min_le_right _ _,
    fun a => expBase_le_max (max_delay : ℚ) mult hm a (initial : ℚ)
      hinitQ hmaxQ⟩
  simp only [expDelayFor, lt_self_iff_false, if_false]
  exact min_le_min
    (truncToInt_mono_nonneg (hnn a)
      (expBase_mono (max_delay : ℚ) mult hm (initial : ℚ) hinitQ hmaxQ a c h))
    le_rfl

/-- Witness for C5 with initial 100 ms, cap 30000 ms, multiplier 2. -/
theorem C5_exponential_no_jitter_w :
    expDelayFor 100 30000 2 0 (3 / 2) 3 = expDelayFor 100 30000 2 0 (1 / 2) 3 ∧
    expDelayFor 100 30000 2 0 0 1 ≤ expDelayFor 100 30000 2 0 0 2 ∧
    expDelayFor 100 30000 2 0 0 5 ≤ 30000 ∧
    expBase (30000 : ℚ) 2 (100 : ℚ) 9 ≤ (30000 : ℚ) := by
  have h := C5_exponential_no_jitter 100 30000 2 (by norm_num) (by norm_num)
    (by norm_num)
  exact ⟨h.1 (3 / 2) (1 / 2) 3, h.2.1 0 1 2 (by omega), h.2.2.1 0 5,
    h.2.2.2 9⟩

/-- Claim C6: the linear backoff delay equals
min(initial + increment * attempt, max_delay), is non-decreasing in the
attempt index and never exceeds max_delay, given initial at least 0,
increment at least 0 and max_delay at least initial. -/
theorem C6_linear_backoff (initial increment max_delay : Int)
    (hinit : 0 ≤ initial) (hinc : 0 ≤ increment)
    (hmax : initial ≤ max_delay) :
    (∀ a : Nat, linearDelayFor initial increment max_delay a =
      min (initial + increment * (a : Int)) max_delay) ∧
    (∀ a c : Nat, a ≤ c → linearDelayFor initial increment max_delay a ≤
      linearDelayFor initial increment max_delay c) ∧
    (∀ a : Nat, linearDelayFor initial increment max_delay a ≤ max_delay) := by
  refine ⟨fun a => rfl, fun a c h => ?_, fun a => min_le_right _ _⟩
  unfold linearDelayFor
  refine min_le_min (add_le_add_left ?_ _) le_rfl
  exact mul_le_mul_of_nonneg_left (by exact_mod_cast h) hinc

/-- Witness for C6 with initial 100 ms, increment 50 ms, cap 30000 ms. -/
theorem C6_linear_backoff_w :
    linearDelayFor 100 50 30000 4 = 300 ∧
    linearDelayFor 100 50 30000 2 ≤ linearDelayFor 100 50 30000 3 ∧
    linearDelayFor 100 50 30000 1000 ≤ 30000 := by
  have h := C6_linear_backoff 100 50 30000 (by norm_num) (by norm_num)
    (by norm_num)
  refine ⟨?_, h.2.1 2 3 (by omega), h.2.2 1000⟩
  rw [h.1 4]
  decide

-- ═════════════════════════════════════════════════════════════════════════
-- Helper lemmas and claim theorems: read loop
-- ═════════════════════════════════════════════════════════════════════════

theorem readLoopGo_stop_take (k : Nat) (items : List ReadItem) :
    ∀ i, readLoopGo (some k) items i =
      (readLoopGo none items i).take (k + 1 - i) := by
  induction items with
  | nil => intro i; simp [readLoopGo]
  | cons item rest ih =>
    intro i
    by_cases h : i ≤ k
    · cases item with
      | err => simp [readLoopGo, runningAt, h]
      | msg data =>
        have hk : k + 1 - i = (k - i) + 1 := by omega
        simp [readLoopGo, runningAt, h, hk]
        rw [ih (i + 1), show k + 1 - (i + 1) = k - i from by omega]
    · have hk : k + 1 - i = 0 := by omega
      simp [readLoopGo, runningAt, h, hk]

/-- Claim C7: once the liveness flag is cleared during the read of iteration
k, the loop exits at the very next loop-condition check: the packets handed
to the dispatcher are exactly the first at most k + 1 packets of the
uninterrupted run (the one whose read was already in flight is the last), so
no message read at a later suspension point is ever dispatched. -/
theorem C7_stop_exits_loop (items : List ReadItem) (k : Nat) :
    readLoop items (some k) = (readLoop items none).take (k + 1) ∧
    (readLoop items (some k)).length ≤ k + 1 := by
  have h := readLoopGo_stop_take k items 0
  rw [Nat.sub_zero] at h
  exact ⟨h, by rw [readLoop, h]; exact List.length_take_le _ _⟩

theorem readLoopGo_mem_rx (stopAt : Option Nat) :
    ∀ (items : List ReadItem) (i : Nat) (p : Packet),
      p ∈ readLoopGo stopAt items i → ∃ m, p = rx_packet m := by
  intro items
  induction items with
  | nil => intro i p h; simp [readLoopGo] at h
  | cons item rest ih =>
    intro i p h
    by_cases hr : runningAt stopAt i = true
    · cases item with
      | err => simp [readLoopGo, hr] at h
      | msg data =>
        simp only [readLoopGo, hr, if_true, List.mem_cons] at h
        rcases h with h | h
        · exact ⟨data, h⟩
        · exact ih (i + 1) p h
    · simp [readLoopGo, hr] at h

/-- Claim C10: every packet built from inbound transport bytes in the client
and server read loops is constructed with Urgency Green, regardless of the
received content, so dispatch always routes it to on_normal and the urgent
path is never taken from the read loop. -/
theorem C10_rx_packets_green (items : List ReadItem) (stopAt : Option Nat) :
    (∀ msg, (rx_packet msg).urgency = greenU ∧
      dispatchHooks (rx_packet msg).urgency = [Hook.normal]) ∧
    (∀ p, p ∈ readLoop items stopAt →
      p.urgency = greenU ∧ dispatchHooks p.urgency = [Hook.normal]) := by
  have hgreen : ∀ msg : List Nat, (rx_packet msg).urgency = greenU :=
    fun _ => rfl
  have hhook : ∀ msg : List Nat,
      dispatchHooks (rx_packet msg).urgency = [Hook.normal] :=
    fun _ => rfl
  refine ⟨fun msg => ⟨hgreen msg, hhook msg⟩, fun p hp => ?_⟩
  obtain ⟨m, rfl⟩ := readLoopGo_mem_rx stopAt items 0 p hp
  exact ⟨hgreen m, hhook m⟩

/-- Witness for C10: the packet wrapped from the inbound bytes [9] is Green
and dispatches to on_normal. -/
theorem C10_rx_packets_green_w :
    (Packet.mk [9] greenU).urgency = greenU ∧
    dispatchHooks (Packet.mk [9] greenU).urgency = [Hook.normal] :=
  (C10_rx_packets_green [ReadItem.msg [9]] none).2 (Packet.mk [9] greenU)
    (by decide)

/-- Claim C8: stop() is idempotent: a second stop leaves the session in the
same state as the first, after stop the session reports not running with the
liveness flag cleared, and a stop before start does not change what
is_running observes (for the client it does not change the state at all). -/
theorem C8_stop_idempotent_noop_before_start :
    (∀ s : ClientState, clientStop (clientStop s) = clientStop s) ∧
    (∀ s : ClientState, (clientStop s).is_running = false) ∧
    clientStop clientInit = clientInit ∧
    (∀ s : ServerState, serverStop (serverStop s) = serverStop s) ∧
    (∀ s : ServerState, (serverStop s).is_running = false) ∧
    (serverStop serverInit).is_running = serverInit.is_running :=
  ⟨fun _ => rfl, fun _ => rfl, rfl, fun _ => rfl, fun _ => rfl, rfl⟩

end DroneWS
